import Mathlib

/-
Verification development for the PromptX landing-page repository.

The repository is a client-side single-page application.  The pieces with
algorithmic content are:
  * the 3D activation-diffusion animation (src/components/EngramNetwork3D.tsx),
  * the 2D activation-diffusion animation (MemoryActivationDiagram in the
    Diagrams module),
  * the scripted chat demo (DemoSimulation),
  * the tabbed tech-spec viewer (TechSpecs) and its regex-based PML
    syntax highlighter (highlightPML),
  * the BibTeX copy handler (BibTeXSection.handleCopy in src/App.tsx).

Numbers are modelled as exact rationals; the decimal literals below denote
the same decimal constants that appear in the source.  State updates are
modelled as pure functions on explicit state values.
-/

/-! ## 3D activation-diffusion model (EngramNetwork3D.tsx) -/

/-- Node categories of the Engram schema (EngramNetwork3D.tsx, `NodeType`). -/
inductive NodeType where
  | query
  | concept
  | raw
deriving DecidableEq, Repr

/-- A node of the 3D engram graph (EngramNetwork3D.tsx, `EngramNode`). -/
structure EngramNode where
  id : Nat
  position : ℚ × ℚ × ℚ
  label : String
  shortLabel : String
  type : NodeType
deriving DecidableEq, Repr

/-- An edge of the 3D engram graph (EngramNetwork3D.tsx, `EngramEdge`). -/
structure EngramEdge where
  source : Nat
  target : Nat
deriving DecidableEq, Repr

/-- The six hardcoded nodes of the 3D scene (EngramNetwork3D.tsx, `nodes`). -/
def nodes3D : List EngramNode :=
  [ { id := 0, position := (0, 0.6, 0), label := "Query: \"Orders Slow\"",
      shortLabel := "Orders Slow", type := .query },
    { id := 1, position := (-1.6, 1.3, 0.6), label := "Latency",
      shortLabel := "Latency", type := .concept },
    { id := 2, position := (1.6, 1.3, -0.6), label := "DB Index",
      shortLabel := "DB Index", type := .concept },
    { id := 3, position := (-2.0, -0.6, 0.4), label := "Timeout Error",
      shortLabel := "Timeout", type := .raw },
    { id := 4, position := (2.0, -0.6, -0.4), label := "Index Optimization",
      shortLabel := "Index Opt", type := .raw },
    { id := 5, position := (0, -1.4, 0), label := "Optimization Plan",
      shortLabel := "Opt Plan", type := .concept } ]

/-- The six hardcoded edges of the 3D scene (EngramNetwork3D.tsx, `edges`). -/
def edges3D : List EngramEdge :=
  [ { source := 0, target := 1 },
    { source := 0, target := 2 },
    { source := 1, target := 3 },
    { source := 2, target := 4 },
    { source := 4, target := 5 },
    { source := 1, target := 2 } ]

/-- The node identifiers of the 3D scene. -/
def nodeIds3D : List Nat := [0, 1, 2, 3, 4, 5]

/-- Association-list model of the JavaScript `Map<number, number>` that holds
the activations.  `mapGet` is `Map.get` with the `|| 0` default used by
the source (`activations.get(id) || 0`). -/
def mapGet : List (Nat × ℚ) → Nat → ℚ
  | [], _ => 0
  | (k0, v) :: rest, k => if k0 = k then v else mapGet rest k

/-- Model of `Map.set`: replace the value of an existing key in place,
otherwise append the new entry. -/
def mapSet : List (Nat × ℚ) → Nat → ℚ → List (Nat × ℚ)
  | [], k, v => [(k, v)]
  | (k0, v0) :: rest, k, v =>
      if k0 = k then (k0, v) :: rest else (k0, v0) :: mapSet rest k v

/-- Clicking a node: `newMap.set(id, 1)` (EngramNetwork3D.tsx, handleActivate,
line 423). -/
def clickActivate3D (m : List (Nat × ℚ)) (id : Nat) : List (Nat × ℚ) :=
  mapSet m id 1

/-- One neighbor update of the 3D spread (EngramNetwork3D.tsx, lines 438-445):
the neighbor is set to the transferred strength only when the transfer
strictly exceeds its current activation. -/
def spreadUpdate3D (m : List (Nat × ℚ)) (neighborId : Nat) (transfer : ℚ) :
    List (Nat × ℚ) :=
  if mapGet m neighborId < transfer then mapSet m neighborId transfer else m

/-- One tick of the 3D decay interval (EngramNetwork3D.tsx, lines 463-483):
every entry is multiplied by 0.96 and kept only when the new value is
greater than 0.05. -/
def decayTick3D (m : List (Nat × ℚ)) : List (Nat × ℚ) :=
  (m.map fun p => (p.1, p.2 * 0.96)).filter fun p => 0.05 < p.2

/-- One firing of the 3D decay interval together with its self-cancellation
flag: the source clears the interval exactly when no node survived the tick
(`hasActiveNodes` is false, lines 476-479). -/
def decayStep3D (m : List (Nat × ℚ)) : List (Nat × ℚ) × Bool :=
  (decayTick3D m, (decayTick3D m).isEmpty)

/-- The neighbors reachable from `sourceId`, in the order the source visits
them: filter the edges touching `sourceId`, then take the opposite
endpoint of each (EngramNetwork3D.tsx, lines 432-435). -/
def neighborsOf (edges : List EngramEdge) (sourceId : Nat) : List Nat :=
  (edges.filter fun e => e.source = sourceId ∨ e.target = sourceId).map
    fun e => if e.source = sourceId then e.target else e.source

/-- One scheduled propagation of the 3D spread: the timeout delay, the node
that is spreading, the neighbor receiving activation, the strength of the
spreading node, the transferred strength, and the recursion depth. -/
structure SpreadEvent where
  delay : Nat
  source : Nat
  neighbor : Nat
  sourceStrength : ℚ
  transfer : ℚ
  depth : Nat
deriving DecidableEq, Repr

/-- Structural-recursion engine for `spreadActivation`.  The first `Nat`
argument is fuel; `spreadActivation` instantiates it with `4 - depth`,
which dominates the recursion depth of the source function because every
recursive call increases `depth` and the source stops at `depth > 3`. -/
def spreadAux (edges : List EngramEdge) :
    Nat → Nat → ℚ → Nat → List SpreadEvent
  | 0, _, _, _ => []
  | fuel + 1, sourceId, strength, depth =>
      if 3 < depth ∨ strength < 0.1 then []
      else
        (neighborsOf edges sourceId).flatMap fun neighborId =>
          { delay := 350 * depth, source := sourceId, neighbor := neighborId,
            sourceStrength := strength, transfer := strength * 0.65,
            depth := depth } ::
            spreadAux edges fuel neighborId (strength * 0.65) (depth + 1)

/-- The recursive spread of EngramNetwork3D.tsx (`spreadActivation`,
lines 428-458), collected as the list of scheduled propagation events.
The call returns immediately when `depth > 3` or `strength < 0.1`;
otherwise it schedules a timeout of `350 * depth` milliseconds whose
callback, for every neighbor, transfers `strength * 0.65` and recurses
with depth `depth + 1`.  `spreadActivation_eq` below shows this fuelled
definition satisfies exactly the recursion of the source. -/
def spreadActivation (edges : List EngramEdge) (sourceId : Nat)
    (strength : ℚ) (depth : Nat) : List SpreadEvent :=
  spreadAux edges (4 - depth) sourceId strength depth

/-! ## Timer bookkeeping of the 3D component (EngramNetwork3D.tsx) -/

/-- The three refs in which EngramNetwork3D stores its timer identifiers
(`decayIntervalRef`, `spreadTimeoutsRef`, `pulseCleanupRef`,
lines 386-388). -/
structure TimerRefs3D where
  decayInterval : Option Nat
  spreadTimeouts : List Nat
  pulseCleanup : Option Nat
deriving DecidableEq, Repr

/-- The `cleanupTimers` callback (lines 391-402): it clears the decay
interval, every stored spread timeout and the pulse-cleanup timeout, and
empties all three refs.  The unmount effect (lines 405-407) calls exactly
this function. -/
def cleanupTimers (_ : TimerRefs3D) : TimerRefs3D :=
  { decayInterval := none, spreadTimeouts := [], pulseCleanup := none }

/-- All timer identifiers still referenced by the component state. -/
def activeTimers3D (ts : TimerRefs3D) : List Nat :=
  ts.decayInterval.toList ++ ts.spreadTimeouts ++ ts.pulseCleanup.toList

/-- One `setTimeout` or `setInterval` call site of a component:
the component name, a description of the call site, the fixed delay in
milliseconds if it is a constant (`none` for the variable `350 * depth`
spread delay), and whether the identifier returned by the call is stored
somewhere that the unmount cleanup of the component clears. -/
structure TimerSite where
  component : String
  callSite : String
  delayMs : Option Nat
  trackedForCleanup : Bool
deriving DecidableEq, Repr

/-- The timer call sites of EngramNetwork3D.tsx: the decay interval is
stored in `decayIntervalRef` (line 463), every spread timeout is pushed
onto `spreadTimeoutsRef` (line 457), and the pulse-cleanup timeout is
stored in `pulseCleanupRef` (line 486); `cleanupTimers` clears all
three refs and the unmount effect calls it. -/
def engram3DTimerSites : List TimerSite :=
  [ { component := "EngramNetwork3D", callSite := "decay setInterval",
      delayMs := some 80, trackedForCleanup := true },
    { component := "EngramNetwork3D", callSite := "spreadActivation setTimeout",
      delayMs := none, trackedForCleanup := true },
    { component := "EngramNetwork3D", callSite := "pulse cleanup setTimeout",
      delayMs := some 4000, trackedForCleanup := true } ]

/-- The single timer call site of MemoryActivationDiagram (Diagrams module,
lines 74-106): the diffusion interval is held in the effect closure and
cleared by the cleanup function the effect returns (line 105). -/
def diagram2DTimerSites : List TimerSite :=
  [ { component := "MemoryActivationDiagram", callSite := "diffusion setInterval",
      delayMs := some 100, trackedForCleanup := true } ]

/-- The timer call sites of DemoSimulation (DemoSimulation module,
lines 136-171): `handleNextStep` schedules a user-message timeout (800 ms)
containing a nested agent-message timeout (1500 ms), and on the last step a
celebration-reset timeout (3000 ms).  None of the returned identifiers is
stored anywhere, and the component has no unmount cleanup that clears
timers, so none of these sites is tracked for cleanup. -/
def demoTimerSites : List TimerSite :=
  [ { component := "DemoSimulation", callSite := "user message setTimeout",
      delayMs := some 800, trackedForCleanup := false },
    { component := "DemoSimulation", callSite := "agent message setTimeout",
      delayMs := some 1500, trackedForCleanup := false },
    { component := "DemoSimulation", callSite := "celebration reset setTimeout",
      delayMs := some 3000, trackedForCleanup := false } ]

/-! ## 2D activation-diffusion model (MemoryActivationDiagram) -/

/-- A node of the 2D diagram (Diagrams module, lines 51-58): identifier,
percent coordinates, label, category string and the transient activation. -/
structure DiagNode where
  id : Nat
  x : ℚ
  y : ℚ
  label : String
  type : String
  active : ℚ
deriving DecidableEq, Repr

/-- A directed edge of the 2D diagram (`{ s, t }`, lines 61-67). -/
structure Edge2D where
  s : Nat
  t : Nat
deriving DecidableEq, Repr

/-- The initial node state of the 2D diagram (all activations 0). -/
def initialNodes2D : List DiagNode :=
  [ ⟨0, 50, 50, "Query: \"Orders Slow\"", "query", 0⟩,
    ⟨1, 30, 30, "Latency", "concept", 0⟩,
    ⟨2, 70, 30, "DB Index", "concept", 0⟩,
    ⟨3, 20, 60, "Timeout Error", "raw", 0⟩,
    ⟨4, 80, 60, "Index Optimization", "raw", 0⟩,
    ⟨5, 50, 80, "Optimization Plan", "concept", 0⟩ ]

/-- The hardcoded edges of the 2D diagram (lines 61-67). -/
def edges2D : List Edge2D := [⟨0, 1⟩, ⟨0, 2⟩, ⟨1, 3⟩, ⟨2, 4⟩, ⟨4, 5⟩, ⟨2, 1⟩]

/-- Model of `prev.find(n => n.id === id)`: the first node with the given
identifier. -/
def findNode (id : Nat) : List DiagNode → Option DiagNode
  | [] => none
  | n :: rest => if n.id = id then some n else findNode id rest

/-- Model of the `findIndex` / in-place mutation pattern of the source:
apply `f` to the first node whose identifier is `tid`, leave the rest
unchanged (no node is touched when the identifier is absent). -/
def updateById (tid : Nat) (f : DiagNode → DiagNode) :
    List DiagNode → List DiagNode
  | [] => []
  | n :: rest => if n.id = tid then f n :: rest else n :: updateById tid f rest

/-- The click handler `activateNode` (lines 69-71): set the clicked node
activation to 1. -/
def activateNode (ns : List DiagNode) (id : Nat) : List DiagNode :=
  ns.map fun n => if n.id = id then { n with active := 1 } else n

/-- The decay phase of the 2D interval tick (lines 81-86): every node with
positive activation is decreased by 0.05, clamped at 0. -/
def decayPhase2D (ns : List DiagNode) : List DiagNode :=
  ns.map fun n =>
    if 0 < n.active then { n with active := max 0 (n.active - 0.05) } else n

/-- The per-target update of the 2D spread (lines 95-98): when the target
activation is below the SOURCE activation, add `source.active * 0.1`
capped at 1; note the guard compares against the source activation, not
against the transferred amount. -/
def spreadTargetUpdate (source n : DiagNode) : DiagNode :=
  if n.active < source.active then
    { n with active := min 1 (n.active + source.active * 0.1) }
  else n

/-- One edge of the 2D spread loop (lines 89-100).  The source writes
`newNodes = [...prev]`, a shallow copy sharing the node objects, and the
decay and spread mutate those objects in place, so `prev.find` observes
the current (decayed, partially spread) values: the source node is read
from the accumulated array.  When it exists and its activation exceeds
0.2, the first node with the target identifier is updated. -/
def spreadEdge2D (acc : List DiagNode) (e : Edge2D) : List DiagNode :=
  match findNode e.s acc with
  | none => acc
  | some source =>
      if 0.2 < source.active then updateById e.t (spreadTargetUpdate source) acc
      else acc

/-- One full tick of the 2D diffusion interval (lines 75-103): decay every
node in place, then run the spread over all edges on the same array.
When nothing changed the source returns the previous array object; the
resulting node values are identical either way. -/
def tick2D (prev : List DiagNode) : List DiagNode :=
  edges2D.foldl spreadEdge2D (decayPhase2D prev)

/-- One firing of the 2D interval together with its self-cancellation flag:
the callback (lines 75-104) contains no `clearInterval`, so the flag is
always false; the interval is cleared only by the unmount cleanup
(line 105). -/
def decayStep2D (prev : List DiagNode) : List DiagNode × Bool :=
  (tick2D prev, false)

/-- The activation of the node with the given identifier (0 when absent). -/
def activeOf (ns : List DiagNode) (id : Nat) : ℚ :=
  match findNode id ns with
  | some n => n.active
  | none => 0

/-- The 2D state right after the query node is clicked. -/
def clicked2D : List DiagNode := activateNode initialNodes2D 0

/-! ## Scripted demo model (DemoSimulation, part_003) -/

/-- The two chat roles (`role: 'user' | 'agent'`). -/
inductive ChatRole where
  | user
  | agent
deriving DecidableEq, Repr

/-- A chat message as far as the script determines it: role and text.
The numeric id (`Date.now()`) and the formatted timestamp depend on the
wall clock and are omitted. -/
structure ChatMessage where
  role : ChatRole
  text : String
deriving DecidableEq, Repr

/-- One entry of the hardcoded `steps` array: the user and agent texts
(absent on step 0, which only carries the start button label).  The
side-panel state objects are display-only and not modelled. -/
structure ScriptStep where
  user : Option String
  agent : Option String
deriving DecidableEq, Repr

/-- The hardcoded step script of DemoSimulation (part_003, lines 55-127),
texts verbatim (apostrophes written as the escape x27). -/
def demoSteps : List ScriptStep :=
  [ { user := none, agent := none },
    { user := some "I need a tool that can query real-time stock data from Alpha Vantage.",
      agent := some "I\x27ve researched the documentation. I have generated a tool definition for \x27alpha_vantage_api\x27 with \x27get_quote\x27 capabilities. Validating in sandbox..." },
    { user := some "Great. Now create a stock trading character named \x27Wolf\x27 that uses this tool.",
      agent := some "Understood. Initiating Nuwa engine... \n\nI have created the \x27Wolf\x27 persona using the ISSUE framework. The agent is now active and bound to the Alpha Vantage tool." },
    { user := some "I currently hold Tesla (TSLA) and Amazon (AMZN) stocks. I hope to make a profit.",
      agent := some "Noted. I have analyzed this input. Saving core facts to Engram memory: \x27User holds TSLA, AMZN\x27." },
    { user := some "System: *2 Hours Later (New Session)*... \nActivate the stock analyst. Recall my stocks and analyze today\x27s market.",
      agent := some "Welcome back. Retrieving context... \n\nRecalling from Long-term Memory: You hold TSLA and AMZN. \n\nFetching current data... TSLA is up 2.1%. AMZN is down 0.5%. Based on your portfolio, I recommend holding." } ]

/-- The demo state the claims are about: current step index and the list
of chat messages (transient typing/celebration indicators omitted). -/
structure DemoState where
  step : Nat
  messages : List ChatMessage
deriving DecidableEq, Repr

/-- The initial demo state: step 0, no messages. -/
def demoInit : DemoState := { step := 0, messages := [] }

/-- The advance operation `handleNextStep` (part_003, lines 136-171), with
its two message-appending timeouts already fired: a no-op once
`step >= steps.length - 1`, otherwise it increments the step and appends
the user message and then the agent message of the new step. -/
def handleNextStep (s : DemoState) : DemoState :=
  if demoSteps.length - 1 ≤ s.step then s
  else
    let nd := demoSteps.getD (s.step + 1) { user := none, agent := none }
    { step := s.step + 1,
      messages := s.messages ++
        [ { role := ChatRole.user, text := nd.user.getD "" },
          { role := ChatRole.agent, text := nd.agent.getD "" } ] }

/-- The reset operation `resetDemo` (part_003, lines 173-178): step 0 and
an empty message list, from any state. -/
def resetDemo (_ : DemoState) : DemoState := demoInit

/-! ## Tech-spec tab viewer model (TechSpecs, part_000) -/

/-- The three tab identifiers of the viewer (`'pml' | 'luban' | 'acp'`). -/
inductive SpecTab where
  | pml
  | luban
  | acp
deriving DecidableEq, Repr

/-- One rendered tab panel: its identifier, the `hidden` attribute value,
and whether its content component is rendered at all. -/
structure TabPanel where
  id : SpecTab
  hidden : Bool
  contentRendered : Bool
deriving DecidableEq, Repr

/-- The three panels as TechSpecs renders them (part_000, lines 54-64):
each panel carries `hidden={activeTab !== id}` and mounts its content only
when `activeTab === id`. -/
def renderTechSpecs (active : SpecTab) : List TabPanel :=
  [ { id := SpecTab.pml, hidden := decide (active ≠ SpecTab.pml),
      contentRendered := decide (active = SpecTab.pml) },
    { id := SpecTab.luban, hidden := decide (active ≠ SpecTab.luban),
      contentRendered := decide (active = SpecTab.luban) },
    { id := SpecTab.acp, hidden := decide (active ≠ SpecTab.acp),
      contentRendered := decide (active = SpecTab.acp) } ]

/-! ## Citation copy model (BibTeXSection.handleCopy, src/App.tsx) -/

/-- The effect of one invocation of `handleCopy` (App.tsx, lines 32-36):
the value written to the `copied` flag, the delay of the scheduled revert
timeout, and the value the timeout callback writes back. -/
structure CopyEffect where
  copiedSet : Bool
  revertDelayMs : Nat
  revertValue : Bool
deriving DecidableEq, Repr

/-- The default value of the `copied` flag (`useState(false)`, line 24). -/
def copiedDefault : Bool := false

/-- Model of `handleCopy`: the clipboard write is fire-and-forget, its
outcome (the argument) is never inspected; `copied` is set to true
unconditionally and a 2000 ms timeout resets it to false. -/
def handleCopy (_clipboardWriteSucceeded : Bool) : CopyEffect :=
  { copiedSet := true, revertDelayMs := 2000, revertValue := false }

/-! ## PML syntax highlighter model (highlightPML, part_000, lines 70-122) -/

/-- The character class of the regex token `[\w_]`: ASCII letters, digits
and underscore (JavaScript `\w` is ASCII-only). -/
def isWordChar (c : Char) : Bool := c.isAlpha || c.isDigit || c = '_'

/-- The ASCII characters of the regex token `\s`.  JavaScript `\s` also
matches Unicode spaces; on inputs containing those, only which branch
consumes a character changes, not the progress and coverage properties
proved below. -/
def isJsSpace (c : Char) : Bool :=
  c = ' ' || c = '\t' || c = '\n' || c = '\r' || c = '\x0b' || c = '\x0c'

/-- Split off the maximal prefix of characters satisfying `p` (the greedy
semantics of a starred character class). -/
def takeWhileSplit (p : Char → Bool) : List Char → List Char × List Char
  | [] => ([], [])
  | c :: cs =>
      if p c then
        let r := takeWhileSplit p cs
        (c :: r.1, r.2)
      else ([], c :: cs)

/-- Match one or more characters satisfying `p` (a `+`-quantified character
class): fails on an empty match. -/
def many1Split (p : Char → Bool) (l : List Char) :
    Option (List Char × List Char) :=
  match takeWhileSplit p l with
  | ([], _) => none
  | (a, b) => some (a, b)

/-- Match exactly the literal character `c`. -/
def charSplit (c : Char) : List Char → Option (List Char × List Char)
  | [] => none
  | d :: ds => if d = c then some ([d], ds) else none

/-- Match `p` if it succeeds, otherwise consume nothing (the `?`
quantifier). -/
def optSplit (p : List Char → Option (List Char × List Char))
    (l : List Char) : Option (List Char × List Char) :=
  match p l with
  | some r => some r
  | none => some ([], l)

/-- Sequence two matchers, concatenating what they consume. -/
def seqSplit (p q : List Char → Option (List Char × List Char))
    (l : List Char) : Option (List Char × List Char) :=
  match p l with
  | none => none
  | some (a, rest) =>
      match q rest with
      | none => none
      | some (b, rest2) => some (a ++ b, rest2)

/-- Match `p` zero or more times (the `*` quantifier over a group), with
fuel bounding the iteration count; the group of the tag regex consumes at
least one character per repetition, so `length` fuel never runs out. -/
def manyZeroSplit (p : List Char → Option (List Char × List Char)) :
    Nat → List Char → List Char × List Char
  | 0, l => ([], l)
  | fuel + 1, l =>
      match p l with
      | none => ([], l)
      | some (a, r) =>
          if a.isEmpty then ([], l)
          else
            let q := manyZeroSplit p fuel r
            (a ++ q.1, q.2)

/-- One repetition of the attribute group of the tag regex of highlightPML,
the token sequence: one or more spaces, an attribute name, an equals sign,
and a double-quoted value. -/
def attrSplit (l : List Char) : Option (List Char × List Char) :=
  seqSplit (many1Split isJsSpace)
    (seqSplit (many1Split isWordChar)
      (seqSplit (charSplit '=')
        (seqSplit (charSplit '"')
          (seqSplit (fun s => some (takeWhileSplit (fun c => !(c = '"')) s))
            (charSplit '"'))))) l

/-- The anchored tag regex of highlightPML (part_000, line 78) as a
parser: an opening angle bracket, an optional slash, a tag name, any
number of attribute groups, optional whitespace, an optional slash and the
closing angle bracket.  The regex has no backtracking-dependent behavior:
whenever a quantified group fails after consuming less than its greedy
match, the required next token also fails, so this greedy parser accepts
exactly the strings the regex matches. -/
def tagMatch (l : List Char) : Option (List Char × List Char) :=
  seqSplit (charSplit '<')
    (seqSplit (optSplit (charSplit '/'))
      (seqSplit (many1Split isWordChar)
        (seqSplit (fun s => some (manyZeroSplit attrSplit s.length s))
          (seqSplit (fun s => some (takeWhileSplit isJsSpace s))
            (seqSplit (optSplit (charSplit '/')) (charSplit '>')))))) l

/-- The text regex of highlightPML (line 109): one or more characters
other than an opening angle bracket. -/
def textMatch (l : List Char) : Option (List Char × List Char) :=
  many1Split (fun c => !(c = '<')) l

/-- A matcher is sound when the consumed part and the rest concatenate
back to the input. -/
def SplitSound (p : List Char → Option (List Char × List Char)) : Prop :=
  ∀ l a r, p l = some (a, r) → a ++ r = l


/-- Fuelled engine for the `highlightPML` loop.  One unit of fuel is spent
per loop iteration; `highlightPML` supplies `length` units, which is enough
because every iteration consumes at least one character
(`highlightPML_eq_cons` below recovers the exact loop structure of the
source). -/
def highlightAux : Nat → List Char → List (List Char)
  | 0, _ => []
  | fuel + 1, l =>
      match l with
      | [] => []
      | c :: rest =>
          match tagMatch (c :: rest) with
          | some (a, r) => a :: highlightAux fuel r
          | none =>
              match textMatch (c :: rest) with
              | some (a, r) => a :: highlightAux fuel r
              | none => [c] :: highlightAux fuel rest

/-- The main loop of `highlightPML` (part_000, lines 76-119), modelled as
the list of source segments the loop consumes, one per iteration: a tag
match, else a text match (maximal run of characters other than the opening
angle bracket), else the single-character fallback.  The source emits one
or more styled spans per consumed segment; the segment is the portion of
the input covered by that iteration. -/
def highlightPML (text : List Char) : List (List Char) :=
  highlightAux text.length text

/-! ## Invariants used by the claims -/

/-- Every activation stored in the 3D map lies in the closed interval
from 0 to 1. -/
def inv3D (m : List (Nat × ℚ)) : Prop := ∀ p ∈ m, 0 ≤ p.2 ∧ p.2 ≤ 1

/-- Every activation of a 2D node list lies in the closed interval
from 0 to 1. -/
def inv2D (ns : List DiagNode) : Prop := ∀ n ∈ ns, 0 ≤ n.active ∧ n.active ≤ 1

/-- A 2D state with the query node at activation 0.5 and the Latency node
at activation 0.3, used to exhibit the spread guard of the source. -/
def c2State : List DiagNode :=
  [ ⟨0, 50, 50, "Query: \"Orders Slow\"", "query", 0.5⟩,
    ⟨1, 30, 30, "Latency", "concept", 0.3⟩,
    ⟨2, 70, 30, "DB Index", "concept", 0⟩,
    ⟨3, 20, 60, "Timeout Error", "raw", 0⟩,
    ⟨4, 80, 60, "Index Optimization", "raw", 0⟩,
    ⟨5, 50, 80, "Optimization Plan", "concept", 0⟩ ]
/-- The fuelled definition satisfies the recursion equation of the source
function: stop when `depth > 3` or `strength < 0.1`, otherwise emit one
event per neighbor and recurse on that neighbor with the transferred
strength and depth `depth + 1`. -/
theorem spreadActivation_eq (edges : List EngramEdge) (sourceId : Nat)
    (strength : ℚ) (depth : Nat) :
    spreadActivation edges sourceId strength depth =
      if 3 < depth ∨ strength < 0.1 then []
      else
        (neighborsOf edges sourceId).flatMap fun neighborId =>
          { delay := 350 * depth, source := sourceId, neighbor := neighborId,
            sourceStrength := strength, transfer := strength * 0.65,
            depth := depth } ::
            spreadActivation edges neighborId (strength * 0.65) (depth + 1) := by
  by_cases h : 3 < depth ∨ strength < 0.1
  · rw [if_pos h]
    cases h4 : 4 - depth with
    | zero => simp [spreadActivation, h4, spreadAux]
    | succ n => simp [spreadActivation, h4, spreadAux, h]
  · have hd : depth ≤ 3 := by
      rcases not_or.mp h with ⟨h1, _⟩
      omega
    have h4 : 4 - depth = (4 - (depth + 1)) + 1 := by omega
    rw [spreadActivation, h4]
    simp only [spreadAux, if_neg h]
    rfl

theorem takeWhileSplit_append (p : Char → Bool) (l : List Char) :
    (takeWhileSplit p l).1 ++ (takeWhileSplit p l).2 = l := by
  induction l with
  | nil => simp [takeWhileSplit]
  | cons c cs ih =>
    by_cases h : p c
    · simp [takeWhileSplit, h, ih]
    · simp [takeWhileSplit, h]

theorem many1Split_sound (p : Char → Bool) : SplitSound (many1Split p) := by
  intro l a r h
  unfold many1Split at h
  have := takeWhileSplit_append p l
  rcases htw : takeWhileSplit p l with ⟨a0, b0⟩
  rw [htw] at h this
  cases a0 with
  | nil => simp at h
  | cons x xs =>
    simp at h
    obtain ⟨h1, h2⟩ := h
    rw [← h1, ← h2]
    simpa using this

theorem many1Split_ne (p : Char → Bool) (l a r : List Char)
    (h : many1Split p l = some (a, r)) : a ≠ [] := by
  unfold many1Split at h
  rcases htw : takeWhileSplit p l with ⟨a0, b0⟩
  rw [htw] at h
  cases a0 with
  | nil => simp at h
  | cons x xs =>
    simp at h
    obtain ⟨h1, _⟩ := h
    rw [← h1]
    simp

theorem charSplit_sound (c : Char) : SplitSound (charSplit c) := by
  intro l a r h
  cases l with
  | nil => simp [charSplit] at h
  | cons d ds =>
    by_cases hd : d = c
    · simp [charSplit, hd] at h
      obtain ⟨h1, h2⟩ := h
      rw [← h1, ← h2]
      simp [hd]
    · simp [charSplit, hd] at h

theorem charSplit_ne (c : Char) (l a r : List Char)
    (h : charSplit c l = some (a, r)) : a ≠ [] := by
  cases l with
  | nil => simp [charSplit] at h
  | cons d ds =>
    by_cases hd : d = c
    · simp [charSplit, hd] at h
      obtain ⟨h1, _⟩ := h
      rw [← h1]; simp
    · simp [charSplit, hd] at h

theorem optSplit_sound (p : List Char → Option (List Char × List Char))
    (hp : SplitSound p) : SplitSound (optSplit p) := by
  intro l a r h
  unfold optSplit at h
  rcases hm : p l with _ | ⟨a0, r0⟩
  · rw [hm] at h; simp at h
    obtain ⟨h1, h2⟩ := h
    rw [h1]
    simpa using h2.symm
  · rw [hm] at h; simp at h
    obtain ⟨h1, h2⟩ := h
    rw [← h1, ← h2]
    exact hp l a0 r0 hm

theorem seqSplit_sound (p q : List Char → Option (List Char × List Char))
    (hp : SplitSound p) (hq : SplitSound q) : SplitSound (seqSplit p q) := by
  intro l a r h
  unfold seqSplit at h
  rcases hm : p l with _ | ⟨a0, r0⟩
  · simp [hm] at h
  · simp only [hm] at h
    rcases hm2 : q r0 with _ | ⟨b0, r1⟩
    · simp [hm2] at h
    · simp only [hm2, Option.some.injEq, Prod.mk.injEq] at h
      obtain ⟨h1, h2⟩ := h
      rw [← h1, ← h2]
      rw [List.append_assoc, hq r0 b0 r1 hm2, hp l a0 r0 hm]

theorem manyZeroSplit_sound (p : List Char → Option (List Char × List Char))
    (hp : SplitSound p) :
    ∀ (fuel : Nat) (l : List Char),
      (manyZeroSplit p fuel l).1 ++ (manyZeroSplit p fuel l).2 = l := by
  intro fuel
  induction fuel with
  | zero => intro l; simp [manyZeroSplit]
  | succ n ih =>
    intro l
    rcases hm : p l with _ | ⟨a, r⟩
    · simp [manyZeroSplit, hm]
    · by_cases ha : a.isEmpty
      · simp [manyZeroSplit, hm, ha]
      · simp only [manyZeroSplit, hm, ha, Bool.false_eq_true, if_false]
        simp only [List.append_assoc, ih r]
        exact hp l a r hm

theorem attrSplit_sound : SplitSound attrSplit := by
  unfold attrSplit
  apply seqSplit_sound
  · exact many1Split_sound _
  apply seqSplit_sound
  · exact many1Split_sound _
  apply seqSplit_sound
  · exact charSplit_sound _
  apply seqSplit_sound
  · exact charSplit_sound _
  apply seqSplit_sound
  · intro l a r h
    simp only [Option.some.injEq] at h
    have hs := takeWhileSplit_append (fun c => !(c = '"')) l
    rw [h] at hs
    simpa using hs
  · exact charSplit_sound _

theorem tagMatch_sound : SplitSound tagMatch := by
  unfold tagMatch
  apply seqSplit_sound
  · exact charSplit_sound _
  apply seqSplit_sound
  · exact optSplit_sound _ (charSplit_sound _)
  apply seqSplit_sound
  · exact many1Split_sound _
  apply seqSplit_sound
  · intro l a r h
    simp only [Option.some.injEq] at h
    have hs := manyZeroSplit_sound attrSplit attrSplit_sound l.length l
    rw [h] at hs
    simpa using hs
  apply seqSplit_sound
  · intro l a r h
    simp only [Option.some.injEq] at h
    have hs := takeWhileSplit_append isJsSpace l
    rw [h] at hs
    simpa using hs
  apply seqSplit_sound
  · exact optSplit_sound _ (charSplit_sound _)
  · exact charSplit_sound _

theorem seqSplit_ne_left (p q : List Char → Option (List Char × List Char))
    (hp : ∀ l a r, p l = some (a, r) → a ≠ []) :
    ∀ l a r, seqSplit p q l = some (a, r) → a ≠ [] := by
  intro l a r h
  unfold seqSplit at h
  rcases hm : p l with _ | ⟨a0, r0⟩
  · simp [hm] at h
  · simp only [hm] at h
    rcases hm2 : q r0 with _ | ⟨b0, r1⟩
    · simp [hm2] at h
    · simp only [hm2, Option.some.injEq, Prod.mk.injEq] at h
      obtain ⟨h1, _⟩ := h
      rw [← h1]
      have := hp l a0 r0 hm
      simp [this]

theorem tagMatch_ne : ∀ l a r, tagMatch l = some (a, r) → a ≠ [] := by
  unfold tagMatch
  apply seqSplit_ne_left
  exact charSplit_ne _

theorem textMatch_sound : SplitSound textMatch := many1Split_sound _

theorem textMatch_ne : ∀ l a r, textMatch l = some (a, r) → a ≠ [] :=
  fun l a r h => many1Split_ne _ l a r h

theorem splitSound_length_lt {pf : List Char → Option (List Char × List Char)}
    (hs : SplitSound pf) (hn : ∀ l a r, pf l = some (a, r) → a ≠ [])
    {l a r : List Char} (h : pf l = some (a, r)) : r.length < l.length := by
  have h1 := hs l a r h
  have h2 := hn l a r h
  have : a.length + r.length = l.length := by
    rw [← h1, List.length_append]
  have : 0 < a.length := List.length_pos.mpr h2
  omega

theorem highlightAux_spec :
    ∀ (fuel : Nat) (l : List Char), l.length ≤ fuel →
      (highlightAux fuel l).flatten = l ∧
      (∀ seg ∈ highlightAux fuel l, seg ≠ []) ∧
      (highlightAux fuel l).length ≤ l.length := by
  intro fuel
  induction fuel with
  | zero =>
      intro l hl
      have : l = [] := List.eq_nil_of_length_eq_zero (Nat.le_zero.mp hl)
      subst this
      simp [highlightAux]
  | succ n ih =>
      intro l hl
      cases l with
      | nil => simp [highlightAux]
      | cons c rest =>
        simp only [List.length_cons] at hl
        rcases htag : tagMatch (c :: rest) with _ | ⟨a, r⟩
        · rcases htxt : textMatch (c :: rest) with _ | ⟨a, r⟩
          · have hrest : rest.length ≤ n := by omega
            obtain ⟨ih1, ih2, ih3⟩ := ih rest hrest
            rw [show highlightAux (n + 1) (c :: rest) = [c] :: highlightAux n rest
              from by simp [highlightAux, htag, htxt]]
            refine ⟨by simp [ih1], ?_, by simp only [List.length_cons]; omega⟩
            intro seg hseg
            rcases List.mem_cons.mp hseg with rfl | hseg
            · simp
            · exact ih2 seg hseg
          · have hlt := splitSound_length_lt textMatch_sound textMatch_ne htxt
            simp only [List.length_cons] at hlt
            have hr : r.length ≤ n := by omega
            obtain ⟨ih1, ih2, ih3⟩ := ih r hr
            have hsound := textMatch_sound _ _ _ htxt
            have hne := textMatch_ne _ _ _ htxt
            rw [show highlightAux (n + 1) (c :: rest) = a :: highlightAux n r
              from by simp [highlightAux, htag, htxt]]
            refine ⟨by simp [ih1, hsound], ?_, by simp only [List.length_cons]; omega⟩
            intro seg hseg
            rcases List.mem_cons.mp hseg with rfl | hseg
            · exact hne
            · exact ih2 seg hseg
        · have hlt := splitSound_length_lt tagMatch_sound tagMatch_ne htag
          simp only [List.length_cons] at hlt
          have hr : r.length ≤ n := by omega
          obtain ⟨ih1, ih2, ih3⟩ := ih r hr
          have hsound := tagMatch_sound _ _ _ htag
          have hne := tagMatch_ne _ _ _ htag
          rw [show highlightAux (n + 1) (c :: rest) = a :: highlightAux n r
            from by simp [highlightAux, htag]]
          refine ⟨by simp [ih1, hsound], ?_, by simp only [List.length_cons]; omega⟩
          intro seg hseg
          rcases List.mem_cons.mp hseg with rfl | hseg
          · exact hne
          · exact ih2 seg hseg

theorem highlightAux_fuel_irrel :
    ∀ (f1 f2 : Nat) (l : List Char), l.length ≤ f1 → l.length ≤ f2 →
      highlightAux f1 l = highlightAux f2 l := by
  intro f1
  induction f1 with
  | zero =>
      intro f2 l h1 h2
      have : l = [] := List.eq_nil_of_length_eq_zero (Nat.le_zero.mp h1)
      subst this
      cases f2 <;> rfl
  | succ n ih =>
      intro f2 l h1 h2
      cases l with
      | nil => cases f2 <;> rfl
      | cons c rest =>
        cases f2 with
        | zero => simp at h2
        | succ m =>
          simp only [List.length_cons] at h1 h2
          rcases htag : tagMatch (c :: rest) with _ | ⟨a, r⟩
          · rcases htxt : textMatch (c :: rest) with _ | ⟨a, r⟩
            · have hrest : rest.length ≤ n := by omega
              have hrest2 : rest.length ≤ m := by omega
              simp [highlightAux, htag, htxt, ih m rest hrest hrest2]
            · have hlt := splitSound_length_lt textMatch_sound textMatch_ne htxt
              simp only [List.length_cons] at hlt
              simp [highlightAux, htag, htxt,
                ih m r (by omega) (by omega)]
          · have hlt := splitSound_length_lt tagMatch_sound tagMatch_ne htag
            simp only [List.length_cons] at hlt
            simp [highlightAux, htag, ih m r (by omega) (by omega)]

theorem highlightPML_nil : highlightPML [] = [] := rfl

theorem highlightPML_eq_cons (c : Char) (rest : List Char) :
    highlightPML (c :: rest) =
      match tagMatch (c :: rest) with
      | some (a, r) => a :: highlightPML r
      | none =>
          match textMatch (c :: rest) with
          | some (a, r) => a :: highlightPML r
          | none => [c] :: highlightPML rest := by
  rcases htag : tagMatch (c :: rest) with _ | ⟨a, r⟩
  · rcases htxt : textMatch (c :: rest) with _ | ⟨a, r⟩
    · simp only [highlightPML, List.length_cons]
      simp [highlightAux, htag, htxt]
    · have hlt := splitSound_length_lt textMatch_sound textMatch_ne htxt
      simp only [List.length_cons] at hlt
      simp only [highlightPML, List.length_cons]
      simp only [highlightAux, htag, htxt]
      rw [highlightAux_fuel_irrel rest.length r.length r (by omega) (le_refl _)]
  · have hlt := splitSound_length_lt tagMatch_sound tagMatch_ne htag
    simp only [List.length_cons] at hlt
    simp only [highlightPML, List.length_cons]
    simp only [highlightAux, htag]
    rw [highlightAux_fuel_irrel rest.length r.length r (by omega) (le_refl _)]

/-! ## Shared helper lemmas for the claims -/

theorem mapGet_mapSet_self (m : List (Nat × ℚ)) (k : Nat) (v : ℚ) :
    mapGet (mapSet m k v) k = v := by
  induction m with
  | nil => simp [mapSet, mapGet]
  | cons p rest ih =>
    obtain ⟨k0, v0⟩ := p
    by_cases h : k0 = k
    · simp [mapSet, h, mapGet]
    · simp [mapSet, h, mapGet, ih]

theorem spreadAux_mem (edges : List EngramEdge) :
    ∀ (fuel src : Nat) (strength : ℚ) (depth : Nat) (ev : SpreadEvent),
      ev ∈ spreadAux edges fuel src strength depth →
      ev.delay = 350 * ev.depth ∧ ev.transfer = ev.sourceStrength * 0.65 ∧
      depth ≤ ev.depth ∧ ev.depth ≤ 3 ∧ 0.1 ≤ ev.sourceStrength ∧
      ev.sourceStrength = strength * 0.65 ^ (ev.depth - depth) := by
  intro fuel
  induction fuel with
  | zero => intro src strength depth ev hev; simp [spreadAux] at hev
  | succ n ih =>
    intro src strength depth ev hev
    rw [spreadAux] at hev
    by_cases h : 3 < depth ∨ strength < 0.1
    · rw [if_pos h] at hev; simp at hev
    · rw [if_neg h] at hev
      have hd : depth ≤ 3 := by
        rcases not_or.mp h with ⟨h1, _⟩; omega
      have hs : 0.1 ≤ strength := not_lt.mp (not_or.mp h).2
      simp only [List.mem_flatMap, List.mem_cons] at hev
      obtain ⟨nb, _, hev | hev⟩ := hev
      · subst hev
        refine ⟨rfl, rfl, le_refl _, hd, hs, ?_⟩
        simp
      · obtain ⟨e1, e2, e3, e4, e5, e6⟩ := ih nb (strength * 0.65) (depth + 1) ev hev
        refine ⟨e1, e2, by omega, e4, e5, ?_⟩
        rw [e6]
        have hdd : depth + 1 ≤ ev.depth := e3
        have hsub : ev.depth - depth = (ev.depth - (depth + 1)) + 1 := by omega
        rw [hsub, pow_succ]
        ring

theorem findNode_mem {id : Nat} {ns : List DiagNode} {n : DiagNode}
    (h : findNode id ns = some n) : n ∈ ns := by
  induction ns with
  | nil => simp [findNode] at h
  | cons m rest ih =>
    by_cases hm : m.id = id
    · simp [findNode, hm] at h
      simp [h]
    · simp only [findNode, hm, if_false] at h
      exact List.mem_cons_of_mem _ (ih h)

theorem mapSet_inv (m : List (Nat × ℚ)) (k : Nat) (v : ℚ)
    (h : inv3D m) (h0 : 0 ≤ v) (h1 : v ≤ 1) : inv3D (mapSet m k v) := by
  induction m with
  | nil =>
    intro p hp
    simp [mapSet] at hp
    simp [hp, h0, h1]
  | cons q rest ih =>
    obtain ⟨k0, v0⟩ := q
    have hrest : inv3D rest := fun p hp => h p (List.mem_cons_of_mem _ hp)
    have hq := h (k0, v0) (List.mem_cons_self _ _)
    by_cases hk : k0 = k
    · intro p hp
      simp only [mapSet, hk, if_pos] at hp
      rcases List.mem_cons.mp hp with rfl | hp
      · exact ⟨h0, h1⟩
      · exact hrest p hp
    · intro p hp
      simp only [mapSet, hk, if_false] at hp
      rcases List.mem_cons.mp hp with rfl | hp
      · exact hq
      · exact ih hrest p hp

theorem decayTick3D_inv (m : List (Nat × ℚ)) (h : inv3D m) :
    inv3D (decayTick3D m) := by
  intro p hp
  simp only [decayTick3D, List.mem_filter, List.mem_map] at hp
  obtain ⟨⟨q, hq, rfl⟩, _⟩ := hp
  obtain ⟨h0, h1⟩ := h q hq
  constructor
  · positivity
  · calc q.2 * 0.96 ≤ 1 * 0.96 := by nlinarith
    _ ≤ 1 := by norm_num

theorem decayPhase2D_inv (ns : List DiagNode) (h : inv2D ns) :
    inv2D (decayPhase2D ns) := by
  intro n hn
  simp only [decayPhase2D, List.mem_map] at hn
  obtain ⟨m0, hm0, rfl⟩ := hn
  obtain ⟨h0, h1⟩ := h m0 hm0
  by_cases hc : 0 < m0.active
  · simp only [hc, if_pos]
    constructor
    · exact le_max_left _ _
    · exact max_le (by norm_num) (by linarith)
  · simp only [hc, if_false]
    exact ⟨h0, h1⟩

theorem spreadTargetUpdate_inv (src n : DiagNode)
    (hn0 : 0 ≤ n.active) (hn1 : n.active ≤ 1) :
    0 ≤ (spreadTargetUpdate src n).active ∧ (spreadTargetUpdate src n).active ≤ 1 := by
  unfold spreadTargetUpdate
  by_cases hc : n.active < src.active
  · simp only [hc, if_pos]
    constructor
    · exact le_min (by norm_num) (by nlinarith)
    · exact min_le_left _ _
  · simp only [hc, if_false]
    exact ⟨hn0, hn1⟩

theorem updateById_inv (tid : Nat) (f : DiagNode → DiagNode) (ns : List DiagNode)
    (hf : ∀ n, 0 ≤ n.active → n.active ≤ 1 → 0 ≤ (f n).active ∧ (f n).active ≤ 1)
    (h : inv2D ns) : inv2D (updateById tid f ns) := by
  induction ns with
  | nil => intro n hn; simp [updateById] at hn
  | cons m rest ih =>
    have hrest : inv2D rest := fun p hp => h p (List.mem_cons_of_mem _ hp)
    have hm := h m (List.mem_cons_self _ _)
    by_cases hk : m.id = tid
    · intro n hn
      simp only [updateById, hk, if_pos] at hn
      rcases List.mem_cons.mp hn with rfl | hn
      · exact hf m hm.1 hm.2
      · exact hrest n hn
    · intro n hn
      simp only [updateById, hk, if_false] at hn
      rcases List.mem_cons.mp hn with rfl | hn
      · exact hm
      · exact ih hrest n hn

theorem spreadEdge2D_inv (acc : List DiagNode) (e : Edge2D)
    (hacc : inv2D acc) : inv2D (spreadEdge2D acc e) := by
  unfold spreadEdge2D
  rcases hfind : findNode e.s acc with _ | src
  · exact hacc
  · by_cases hc : (0.2 : ℚ) < src.active
    · simp only [hc, if_pos]
      exact updateById_inv _ _ _
        (fun n hn0 hn1 => spreadTargetUpdate_inv src n hn0 hn1) hacc
    · simp only [hc, if_false]
      exact hacc

theorem foldl_spreadEdge2D_inv :
    ∀ (es : List Edge2D) (acc : List DiagNode), inv2D acc →
      inv2D (es.foldl spreadEdge2D acc) := by
  intro es
  induction es with
  | nil => intro acc hacc; simpa using hacc
  | cons e rest ih =>
    intro acc hacc
    simp only [List.foldl_cons]
    exact ih _ (spreadEdge2D_inv acc e hacc)

theorem tick2D_inv (prev : List DiagNode) (h : inv2D prev) : inv2D (tick2D prev) :=
  foldl_spreadEdge2D_inv edges2D _ (decayPhase2D_inv prev h)

theorem activateNode_inv (ns : List DiagNode) (id : Nat) (h : inv2D ns) :
    inv2D (activateNode ns id) := by
  intro n hn
  simp only [activateNode, List.mem_map] at hn
  obtain ⟨m0, hm0, rfl⟩ := hn
  obtain ⟨h0, h1⟩ := h m0 hm0
  by_cases hk : m0.id = id
  · simp only [hk, if_pos]
    norm_num
  · simp only [hk, if_false]
    exact ⟨h0, h1⟩

/-! ## Claim theorems -/

/-- C1 (counterexample): in the 2D implementation the decay is not
multiplicative.  Clicking the query node sets its activation to 1; one
interval tick brings it to 0.95 and a second tick to 0.90 (node 0 is the
target of no edge, so only decay touches it).  No single factor explains
both ticks: 0.95 = f * 1 forces f = 0.95, but 0.90 is not 0.95 * 0.95. -/
theorem claim_C1_decay_counterexample :
    activeOf clicked2D 0 = 1 ∧
    activeOf (tick2D clicked2D) 0 = 0.95 ∧
    activeOf (tick2D (tick2D clicked2D)) 0 = 0.9 ∧
    ¬ ∃ f : ℚ,
        activeOf (tick2D clicked2D) 0 = f * activeOf clicked2D 0 ∧
        activeOf (tick2D (tick2D clicked2D)) 0 = f * activeOf (tick2D clicked2D) 0 := by
  have e0 : activeOf clicked2D 0 = 1 := by
    norm_num [clicked2D, activateNode, initialNodes2D, activeOf, findNode]
  have e1 : activeOf (tick2D clicked2D) 0 = 0.95 := by
    norm_num [tick2D, clicked2D, activateNode, initialNodes2D, decayPhase2D, edges2D,
      spreadEdge2D, findNode, updateById, spreadTargetUpdate, activeOf, max_def, min_def]
  have e2 : activeOf (tick2D (tick2D clicked2D)) 0 = 0.9 := by
    norm_num [tick2D, clicked2D, activateNode, initialNodes2D, decayPhase2D, edges2D,
      spreadEdge2D, findNode, updateById, spreadTargetUpdate, activeOf, max_def, min_def]
  refine ⟨e0, e1, e2, ?_⟩
  rintro ⟨f, h1, h2⟩
  rw [e0, e1] at h1
  rw [e1, e2] at h2
  have hf : f = 0.95 := by linarith
  rw [hf] at h2
  norm_num at h2

/-- C1 (amended): clicking sets the clicked node to the maximum 1 in both
implementations.  In 3D, a decay tick multiplies each stored activation by
0.96, which strictly decreases it, and keeps the node exactly when the new
value is above the floor 0.05.  In 2D, the decay phase of a tick
subtracts 0.05 (clamped at 0) from each positive activation — a
subtractive, not multiplicative, decrease — which strictly decreases it
and sends it straight to 0 once it is at most 0.05; no node is removed. -/
theorem claim_C1_click_and_decay :
    (∀ (m : List (Nat × ℚ)) (id : Nat), mapGet (clickActivate3D m id) id = 1) ∧
    (∀ (ns : List DiagNode) (id : Nat) (n : DiagNode),
       n ∈ activateNode ns id → n.id = id → n.active = 1) ∧
    (∀ (m : List (Nat × ℚ)) (p : Nat × ℚ), p ∈ decayTick3D m →
       ∃ q ∈ m, p = (q.1, q.2 * 0.96) ∧ 0.05 < p.2 ∧ p.2 < q.2) ∧
    (∀ (m : List (Nat × ℚ)) (q : Nat × ℚ), q ∈ m →
       (0.05 < q.2 * 0.96 ↔ (q.1, q.2 * 0.96) ∈ decayTick3D m)) ∧
    (∀ (ns : List DiagNode) (n : DiagNode), n ∈ decayPhase2D ns →
       ∃ m0 ∈ ns, n.id = m0.id ∧
         n.active = (if 0 < m0.active then max 0 (m0.active - 0.05) else m0.active) ∧
         (0 < m0.active → n.active < m0.active) ∧
         (0 < m0.active → m0.active ≤ 0.05 → n.active = 0)) := by
  refine ⟨?_, ?_, ?_, ?_, ?_⟩
  · intro m id
    exact mapGet_mapSet_self m id 1
  · intro ns id n hn hid
    simp only [activateNode, List.mem_map] at hn
    obtain ⟨m0, hm0, rfl⟩ := hn
    by_cases hk : m0.id = id
    · simp [hk]
    · simp only [hk, if_false] at hid
  · intro m p hp
    simp only [decayTick3D, List.mem_filter, List.mem_map, decide_eq_true_eq] at hp
    obtain ⟨⟨q, hq, rfl⟩, hgt⟩ := hp
    exact ⟨q, hq, rfl, hgt, by linarith⟩
  · intro m q hq
    constructor
    · intro hgt
      simp only [decayTick3D, List.mem_filter, List.mem_map, decide_eq_true_eq]
      exact ⟨⟨q, hq, rfl⟩, hgt⟩
    · intro hmem
      simpa using (List.mem_filter.mp hmem).2
  · intro ns n hn
    simp only [decayPhase2D, List.mem_map] at hn
    obtain ⟨m0, hm0, rfl⟩ := hn
    by_cases hc : 0 < m0.active
    · refine ⟨m0, hm0, by simp [hc], by simp [hc], ?_, ?_⟩
      · intro _
        simp only [hc, if_pos]
        exact max_lt (by linarith) (by linarith)
      · intro _ hsmall
        simp only [hc, if_pos]
        exact max_eq_left (by linarith)
    · exact ⟨m0, hm0, by simp [hc], by simp [hc], fun h => absurd h hc, fun h => absurd h hc⟩

/-- C1 (witness): concrete instances of the amended claim — clicking on the
empty 3D map puts node 0 at activation 1, and the clicked node of the 2D
diagram carries activation 1. -/
theorem claim_C1_witness :
    mapGet (clickActivate3D [] 0) 0 = 1 ∧
    (⟨0, 50, 50, "Query: \"Orders Slow\"", "query", 1⟩ : DiagNode).active = 1 :=
  ⟨claim_C1_click_and_decay.1 [] 0,
   claim_C1_click_and_decay.2.1 initialNodes2D 0 _
     (by simp [activateNode, initialNodes2D]) rfl⟩

/-- C2 (counterexample): in the 2D implementation activation IS propagated
to a neighbor whose activation is at least the transfer.  In the state
`c2State` (query node at 0.5, Latency node at 0.3) the tick decays the
query node to 0.45 and Latency to 0.25; the edge from node 0 then
transfers 0.45 * 0.1 = 0.045, which does not exceed 0.25, yet Latency is
updated to 0.295 because the guard compares the target with the SOURCE
activation (0.25 < 0.45), not with the transfer. -/
theorem claim_C2_counterexample :
    activeOf c2State 1 = 0.3 ∧
    activeOf (decayPhase2D c2State) 0 = 0.45 ∧
    activeOf (decayPhase2D c2State) 1 = 0.25 ∧
    (0.45 : ℚ) * 0.1 ≤ 0.25 ∧
    activeOf (tick2D c2State) 1 = 0.295 ∧
    activeOf (tick2D c2State) 1 ≠ activeOf (decayPhase2D c2State) 1 := by
  have e0 : activeOf c2State 1 = 0.3 := by
    norm_num [c2State, activeOf, findNode]
  have e05 : activeOf (decayPhase2D c2State) 0 = 0.45 := by
    norm_num [c2State, decayPhase2D, activeOf, findNode, max_def]
  have e1 : activeOf (decayPhase2D c2State) 1 = 0.25 := by
    norm_num [c2State, decayPhase2D, activeOf, findNode, max_def]
  have e2 : activeOf (tick2D c2State) 1 = 0.295 := by
    norm_num [tick2D, c2State, decayPhase2D, edges2D, spreadEdge2D, findNode,
      updateById, spreadTargetUpdate, activeOf, max_def, min_def]
  refine ⟨e0, e05, e1, by norm_num, e2, ?_⟩
  rw [e1, e2]
  norm_num

/-- C2 (amended): the 3D implementation behaves as the claim states — a
transfer at most the current activation leaves the map untouched, and a
strictly larger transfer is written.  The 2D implementation instead guards
the update by comparing the target activation with the SOURCE activation:
a target below the source is updated by adding the transfer (capped at 1)
even when the transfer does not exceed the target. -/
theorem claim_C2_spread_guards :
    (∀ (m : List (Nat × ℚ)) (nid : Nat) (t : ℚ),
       t ≤ mapGet m nid → spreadUpdate3D m nid t = m) ∧
    (∀ (m : List (Nat × ℚ)) (nid : Nat) (t : ℚ),
       mapGet m nid < t → mapGet (spreadUpdate3D m nid t) nid = t) ∧
    (∀ src n : DiagNode, src.active ≤ n.active → spreadTargetUpdate src n = n) ∧
    (∀ src n : DiagNode, n.active < src.active →
       (spreadTargetUpdate src n).active = min 1 (n.active + src.active * 0.1)) := by
  refine ⟨?_, ?_, ?_, ?_⟩
  · intro m nid t h
    simp only [spreadUpdate3D]
    rw [if_neg (not_lt.mpr h)]
  · intro m nid t h
    simp only [spreadUpdate3D]
    rw [if_pos h, mapGet_mapSet_self]
  · intro src n h
    simp only [spreadTargetUpdate]
    rw [if_neg (not_lt.mpr h)]
  · intro src n h
    simp only [spreadTargetUpdate]
    rw [if_pos h]

/-- C2 (witness): a transfer of 0 to node 0 of the empty 3D map (current
activation 0) leaves the map unchanged. -/
theorem claim_C2_witness : spreadUpdate3D [] 0 0 = [] :=
  claim_C2_spread_guards.1 [] 0 0 (le_of_eq (rfl : (0 : ℚ) = mapGet [] 0))

/-- C3: from a click (strength 1, depth 1), every scheduled propagation of
the 3D spread is delayed by 350 ms times its depth, transfers exactly the
spreading node strength times 0.65 (hence 0.65 to the power of its depth),
stays within depths 1 to 3, and starts from a strength of at least 0.1;
and the recursion returns immediately once the depth exceeds 3 or the
strength drops below 0.1. -/
theorem claim_C3_spread_schedule :
    (∀ (id : Nat) (ev : SpreadEvent), ev ∈ spreadActivation edges3D id 1 1 →
       ev.delay = 350 * ev.depth ∧
       ev.transfer = ev.sourceStrength * 0.65 ∧
       ev.transfer = (0.65 : ℚ) ^ ev.depth ∧
       1 ≤ ev.depth ∧ ev.depth ≤ 3 ∧ (0.1 : ℚ) ≤ ev.sourceStrength) ∧
    (∀ (src : Nat) (strength : ℚ) (depth : Nat),
       3 < depth ∨ strength < 0.1 →
       spreadActivation edges3D src strength depth = []) := by
  constructor
  · intro id ev hev
    obtain ⟨e1, e2, e3, e4, e5, e6⟩ := spreadAux_mem edges3D (4 - 1) id 1 1 ev hev
    refine ⟨e1, e2, ?_, e3, e4, e5⟩
    rw [e2, e6]
    have hde : ev.depth - 1 + 1 = ev.depth := by omega
    rw [one_mul, ← pow_succ, hde]
  · intro src strength depth h
    rw [spreadActivation_eq, if_pos h]

/-- C3 (witness): a call at depth 4 stops immediately. -/
theorem claim_C3_witness : spreadActivation edges3D 0 1 4 = [] :=
  claim_C3_spread_schedule.2 0 1 4 (Or.inl (by norm_num))

/-- C4 (counterexample): the 2D diffusion interval never cancels itself.
In the initial 2D state no node is active, yet the tick reports no
cancellation — the interval callback contains no clearInterval and runs
until the component unmounts. -/
theorem claim_C4_counterexample :
    (initialNodes2D.map fun n => n.active) = [0, 0, 0, 0, 0, 0] ∧
    (decayStep2D initialNodes2D).2 = false :=
  ⟨rfl, rfl⟩

/-- C4 (amended): the 3D decay interval clears itself exactly when no node
survives the tick; the 2D interval never clears itself. -/
theorem claim_C4_self_cancel :
    (∀ m : List (Nat × ℚ), (decayStep3D m).2 = true ↔ decayTick3D m = []) ∧
    (∀ ns : List DiagNode, (decayStep2D ns).2 = false) := by
  constructor
  · intro m
    simp [decayStep3D, List.isEmpty_iff]
  · intro ns
    rfl

/-- C4 (witness): on the empty 3D map the decay tick cancels the interval. -/
theorem claim_C4_witness : (decayStep3D []).2 = true ↔ decayTick3D [] = [] :=
  claim_C4_self_cancel.1 []

/-- C5 (counterexample): the demo simulation schedules three timeouts
(800 ms user message, 1500 ms agent message, 3000 ms celebration reset)
and none of their identifiers is stored or cleared by any unmount cleanup,
so they can fire after unmount. -/
theorem claim_C5_counterexample :
    (demoTimerSites.map fun t => t.trackedForCleanup) = [false, false, false] ∧
    demoTimerSites.length = 3 :=
  ⟨rfl, rfl⟩

/-- C5 (amended): the unmount cleanup of the 3D component empties every
timer ref, and every timer call site of the 3D and 2D animations stores
its identifier where that cleanup (or the effect cleanup) clears it; the
demo simulation tracks none of its timeouts for cleanup. -/
theorem claim_C5_unmount_cleanup :
    (∀ ts : TimerRefs3D, activeTimers3D (cleanupTimers ts) = []) ∧
    ((engram3DTimerSites ++ diagram2DTimerSites).all fun t => t.trackedForCleanup) = true ∧
    (demoTimerSites.all fun t => !t.trackedForCleanup) = true :=
  ⟨fun _ => rfl, rfl, rfl⟩

/-- C5 (witness): a concrete timer state is fully cleared by the cleanup. -/
theorem claim_C5_witness :
    activeTimers3D (cleanupTimers ⟨some 1, [2, 3], some 4⟩) = [] :=
  claim_C5_unmount_cleanup.1 ⟨some 1, [2, 3], some 4⟩

/-- C6: advancing the demo from the initial state four times reaches step 4
and produces exactly the four user/agent pairs of the step script, in step
order and with the literal texts; a further advance is a no-op, and reset
restores the initial state from anywhere. -/
theorem claim_C6_demo_script :
    (handleNextStep^[4] demoInit).step = 4 ∧
    (handleNextStep^[4] demoInit).messages =
      [ { role := ChatRole.user,
          text := "I need a tool that can query real-time stock data from Alpha Vantage." },
        { role := ChatRole.agent,
          text := "I\x27ve researched the documentation. I have generated a tool definition for \x27alpha_vantage_api\x27 with \x27get_quote\x27 capabilities. Validating in sandbox..." },
        { role := ChatRole.user,
          text := "Great. Now create a stock trading character named \x27Wolf\x27 that uses this tool." },
        { role := ChatRole.agent,
          text := "Understood. Initiating Nuwa engine... \n\nI have created the \x27Wolf\x27 persona using the ISSUE framework. The agent is now active and bound to the Alpha Vantage tool." },
        { role := ChatRole.user,
          text := "I currently hold Tesla (TSLA) and Amazon (AMZN) stocks. I hope to make a profit." },
        { role := ChatRole.agent,
          text := "Noted. I have analyzed this input. Saving core facts to Engram memory: \x27User holds TSLA, AMZN\x27." },
        { role := ChatRole.user,
          text := "System: *2 Hours Later (New Session)*... \nActivate the stock analyst. Recall my stocks and analyze today\x27s market." },
        { role := ChatRole.agent,
          text := "Welcome back. Retrieving context... \n\nRecalling from Long-term Memory: You hold TSLA and AMZN. \n\nFetching current data... TSLA is up 2.1%. AMZN is down 0.5%. Based on your portfolio, I recommend holding." } ] ∧
    handleNextStep (handleNextStep^[4] demoInit) = handleNextStep^[4] demoInit ∧
    ∀ s : DemoState, resetDemo s = demoInit := by
  refine ⟨?_, ?_, ?_, fun _ => rfl⟩ <;> rfl

/-- C6 (witness): reset from the fully-advanced state gives the initial
state. -/
theorem claim_C6_witness : resetDemo (handleNextStep^[4] demoInit) = demoInit :=
  claim_C6_demo_script.2.2.2 (handleNextStep^[4] demoInit)

/-- C7: for every selected tab, filtering the rendered panels to the
non-hidden ones leaves exactly the panel of the selected tab, with its
content rendered; a panel is hidden exactly when its identifier differs
from the selected tab, its content is mounted exactly when the identifier
matches, and every hidden panel has unrendered content. -/
theorem claim_C7_single_panel :
    ∀ t : SpecTab,
      ((renderTechSpecs t).filter fun p => !p.hidden) =
        [{ id := t, hidden := false, contentRendered := true }] ∧
      ((renderTechSpecs t).all fun p =>
          (p.hidden == decide (p.id ≠ t)) && (p.contentRendered == decide (p.id = t))) = true ∧
      (((renderTechSpecs t).filter fun p => p.hidden).all fun p => !p.contentRendered) = true := by
  intro t
  cases t <;> exact ⟨rfl, rfl, rfl⟩

/-- C7 (witness): the property at the pml tab. -/
theorem claim_C7_witness :
    ((renderTechSpecs SpecTab.pml).filter fun p => !p.hidden) =
      [{ id := SpecTab.pml, hidden := false, contentRendered := true }] :=
  (claim_C7_single_panel SpecTab.pml).1

/-- C8: whatever the clipboard write outcome, the copy handler sets the
copied flag to true, schedules the revert after exactly 2000 ms, and the
revert writes back the default value false; the handler is insensitive to
the outcome. -/
theorem claim_C8_copy_indicator :
    ∀ ok : Bool,
      (handleCopy ok).copiedSet = true ∧
      (handleCopy ok).revertDelayMs = 2000 ∧
      (handleCopy ok).revertValue = copiedDefault ∧
      handleCopy ok = handleCopy true :=
  fun _ => ⟨rfl, rfl, rfl, rfl⟩

/-- C8 (witness): the behavior on a failed clipboard write. -/
theorem claim_C8_witness :
    (handleCopy false).copiedSet = true ∧
    (handleCopy false).revertDelayMs = 2000 ∧
    (handleCopy false).revertValue = copiedDefault ∧
    handleCopy false = handleCopy true :=
  claim_C8_copy_indicator false

/-- C9: activations stay in the closed interval from 0 to 1 in both
implementations — the empty initial 3D map, a click, a spread update with
an in-range transfer, every transfer generated by a click at strength 1,
and a decay tick all preserve the invariant; likewise the initial 2D
state, a 2D click and a full 2D tick. -/
theorem claim_C9_activation_bounds :
    inv3D [] ∧
    (∀ (m : List (Nat × ℚ)) (id : Nat), inv3D m → inv3D (clickActivate3D m id)) ∧
    (∀ (m : List (Nat × ℚ)) (id : Nat) (t : ℚ),
       0 ≤ t → t ≤ 1 → inv3D m → inv3D (spreadUpdate3D m id t)) ∧
    (∀ (id : Nat) (ev : SpreadEvent), ev ∈ spreadActivation edges3D id 1 1 →
       0 ≤ ev.transfer ∧ ev.transfer ≤ 1) ∧
    (∀ m : List (Nat × ℚ), inv3D m → inv3D (decayTick3D m)) ∧
    inv2D initialNodes2D ∧
    (∀ (ns : List DiagNode) (id : Nat), inv2D ns → inv2D (activateNode ns id)) ∧
    (∀ ns : List DiagNode, inv2D ns → inv2D (tick2D ns)) := by
  refine ⟨?_, ?_, ?_, ?_, ?_, ?_, ?_, ?_⟩
  · intro p hp
    simp at hp
  · intro m id h
    exact mapSet_inv m id 1 h (by norm_num) (by norm_num)
  · intro m id t h0 h1 h
    unfold spreadUpdate3D
    by_cases hc : mapGet m id < t
    · rw [if_pos hc]
      exact mapSet_inv m id t h h0 h1
    · rw [if_neg hc]
      exact h
  · intro id ev hev
    obtain ⟨_, e2, e3, _, _, e6⟩ := spreadAux_mem edges3D (4 - 1) id 1 1 ev hev
    rw [e2, e6]
    constructor
    · positivity
    · have hp0 : (0 : ℚ) ≤ (0.65 : ℚ) ^ (ev.depth - 1) := by positivity
      have hp1 : (0.65 : ℚ) ^ (ev.depth - 1) ≤ 1 :=
        pow_le_one₀ (by norm_num) (by norm_num)
      nlinarith
  · exact decayTick3D_inv
  · norm_num [inv2D, initialNodes2D]
  · intro ns id h
    exact activateNode_inv ns id h
  · exact tick2D_inv

/-- C9 (witness): the invariant holds on the 2D state reached by clicking
the query node and running one tick from the initial state. -/
theorem claim_C9_witness : inv2D (tick2D (activateNode initialNodes2D 0)) :=
  claim_C9_activation_bounds.2.2.2.2.2.2.2 _
    (claim_C9_activation_bounds.2.2.2.2.2.2.1 initialNodes2D 0
      claim_C9_activation_bounds.2.2.2.2.2.1)

/-- C10: the main loop of the PML highlighter terminates on every input
and covers it exactly: the consumed segments concatenate back to the whole
input, every iteration consumes at least one character (no segment is
empty), and hence the loop runs at most length-of-input iterations. -/
theorem claim_C10_highlighter_total :
    ∀ s : String,
      (highlightPML s.data).flatten = s.data ∧
      (∀ seg ∈ highlightPML s.data, seg ≠ []) ∧
      (highlightPML s.data).length ≤ s.data.length :=
  fun s => highlightAux_spec s.data.length s.data (le_refl _)

/-- C10 (witness): the segment decomposition of a concrete input covers
it. -/
theorem claim_C10_witness :
    (highlightPML ("<role>" : String).data).flatten = ("<role>" : String).data :=
  (claim_C10_highlighter_total "<role>").1
